import Mathlib

/-!
Verification of the `ratata-notes` terminal note manager.

The development shallowly embeds the program's three source files
(`src/main.rs`, `src/db.rs`, `src/models.rs`) together with the parts of
its direct dependencies that carry state-transition logic and that the
program's behaviour depends on:

* `ratatui::widgets::ListState` — `select`, `select_next`,
  `select_previous` (saturating, non-wrapping cursor moves), and the
  selection clamping that the `List` stateful widget performs during
  rendering (out-of-bounds selection is clamped to the last index,
  selection on an empty list is reset to none);
* `tui_input::Input` — a single-line edit buffer (value + char cursor)
  driven by key events.

The SQLite store of `db.rs` is embedded as a list of rows kept in rowid
(= id) order, as SQLite stores an `INTEGER PRIMARY KEY AUTOINCREMENT`
table, plus the autoincrement counter.  A ghost `log` field records every
mutating SQL statement executed, so "no store operation is performed" is
expressible as `db` being unchanged.

Mutation failures (`.unwrap()` on store calls) and terminal I/O are out
of scope per the spec; the store operations themselves are total.
Rust indexing expressions that would panic out of bounds are embedded as
guarded no-ops; every use site is proved in bounds by the cursor
invariant, so the guard branch is dead.
-/

namespace Ratata

/-- `models.rs`: a persisted note. -/
structure Note where
  id : Int
  title : String
  content : String
  deriving DecidableEq

/-- Ghost trace entry: one mutating SQL statement executed by `db.rs`. -/
inductive StoreOp where
  | insert (title content : String)
  | update (id : Int) (title content : String)
  | delete (id : Int)
  deriving DecidableEq

/-- `db.rs`: the SQLite-backed store.  `rows` is the `notes` table in
rowid (= id) order; `nextId` is the AUTOINCREMENT counter (strictly
greater than every id ever assigned); `log` is a ghost trace of the
mutating statements executed. -/
structure Database where
  rows : List Note
  nextId : Int
  log : List StoreOp
  deriving DecidableEq

/-- `Database::add_note`: `INSERT INTO notes (title, content) VALUES (?1, ?2)`
followed by `last_insert_rowid()`.  The fresh row gets the autoincrement
id and is appended (largest rowid sits at the end of the table). -/
def Database.add_note (db : Database) (title content : String) : Note × Database :=
  let note : Note := ⟨db.nextId, title, content⟩
  (note, ⟨db.rows ++ [note], db.nextId + 1, StoreOp.insert title content :: db.log⟩)

/-- `Database::update_note`: `UPDATE notes SET title = ?1, content = ?2 WHERE id = ?3`,
then returns a `Note` built from the arguments (whether or not a row matched). -/
def Database.update_note (db : Database) (id : Int) (title content : String) :
    Note × Database :=
  (⟨id, title, content⟩,
   ⟨db.rows.map (fun r => if r.id = id then { r with title := title, content := content } else r),
    db.nextId, StoreOp.update id title content :: db.log⟩)

/-- `Database::delete_note`: `DELETE FROM notes WHERE id = ?1` (no-op if absent). -/
def Database.delete_note (db : Database) (id : Int) : Database :=
  ⟨db.rows.filter (fun r => r.id != id), db.nextId, StoreOp.delete id :: db.log⟩

/-- Insert a note into an id-sorted list (helper for `ORDER BY id`). -/
def insertById (n : Note) : List Note → List Note
  | [] => [n]
  | m :: ms => if n.id ≤ m.id then n :: m :: ms else m :: insertById n ms

/-- Sort a list of notes by ascending id (`ORDER BY id`). -/
def sortById : List Note → List Note
  | [] => []
  | n :: ns => insertById n (sortById ns)

/-- `Database::get_all_notes`: `SELECT id, title, content FROM notes ORDER BY id`.
A read-only query: it does not touch the table or the ghost log. -/
def Database.get_all_notes (db : Database) : List Note :=
  sortById db.rows

/-! ### Key events (crossterm) -/

/-- `crossterm::event::KeyEventKind`. -/
inductive KeyEventKind where
  | Press
  | Repeat
  | Release
  deriving DecidableEq

/-- `crossterm::event::KeyCode` (the variants this program can react to;
every other variant behaves like the wildcard arm and is represented by
`other`). -/
inductive KeyCode where
  | Char (c : Char)
  | Esc
  | Enter
  | Tab
  | Backspace
  | Delete
  | Up
  | Down
  | Left
  | Right
  | Home
  | End
  | other
  deriving DecidableEq

/-- `crossterm::event::KeyModifiers` (bitflags; SUPER/HYPER/META omitted —
no code path distinguishes them from the empty set). -/
structure KeyModifiers where
  shift : Bool
  ctrl : Bool
  alt : Bool
  deriving DecidableEq

def KeyModifiers.NONE : KeyModifiers := ⟨false, false, false⟩

def KeyModifiers.CONTROL : KeyModifiers := ⟨false, true, false⟩

/-- `crossterm::event::KeyEvent`. -/
structure KeyEvent where
  code : KeyCode
  modifiers : KeyModifiers
  kind : KeyEventKind
  deriving DecidableEq

/-- `crossterm::event::Event`: the run loop only inspects `Key` events;
all other variants (mouse, resize, focus, paste) are collapsed into
`resize`/`nonKey`-style representatives. -/
inductive Event where
  | key (k : KeyEvent)
  | resize (w h : Nat)
  deriving DecidableEq

/-! ### tui_input::Input -/

/-- `tui_input::Input`: a single-line edit buffer; `cursor` is a char
index in `[0, value.length]`. -/
structure Input where
  value : String
  cursor : Nat
  deriving DecidableEq

/-- `Input::default()`. -/
def Input.default : Input := ⟨"", 0⟩

/-- `Input::reset()`: back to the default (empty) state. -/
def Input.reset (_i : Input) : Input := Input.default

/-- `Input::with_value(value)`: replaces the value and puts the cursor at
its end (`value.chars().count()`). -/
def Input.with_value (_i : Input) (v : String) : Input := ⟨v, v.length⟩

def Input.insert_char (i : Input) (c : Char) : Input :=
  ⟨String.mk (i.value.toList.take i.cursor ++ c :: i.value.toList.drop i.cursor),
   i.cursor + 1⟩

def Input.delete_prev_char (i : Input) : Input :=
  if i.cursor = 0 then i
  else ⟨String.mk (i.value.toList.take (i.cursor - 1) ++ i.value.toList.drop i.cursor),
        i.cursor - 1⟩

def Input.delete_next_char (i : Input) : Input :=
  ⟨String.mk (i.value.toList.take i.cursor ++ i.value.toList.drop (i.cursor + 1)), i.cursor⟩

def Input.delete_line (_i : Input) : Input := ⟨"", 0⟩

def Input.go_prev_char (i : Input) : Input := { i with cursor := i.cursor - 1 }

def Input.go_next_char (i : Input) : Input :=
  { i with cursor := min (i.cursor + 1) i.value.length }

def Input.go_start (i : Input) : Input := { i with cursor := 0 }

def Input.go_end (i : Input) : Input := { i with cursor := i.value.length }

/-- `tui_input`'s crossterm backend (`to_input_request` + `handle`):
only key-press events are handled; plain characters insert at the cursor,
Backspace/Delete/arrows/Home/End edit or move, and the Ctrl chords map to
start/end/line operations.  (The Ctrl word-level chords of the library
are not exercised by any claim and behave here like unhandled keys.) -/
def Input.handle_event (i : Input) (e : Event) : Input :=
  match e with
  | Event.key k =>
      match k.kind with
      | KeyEventKind.Press =>
          if k.modifiers.ctrl then
            match k.code with
            | KeyCode.Char 'a' => i.go_start
            | KeyCode.Char 'e' => i.go_end
            | KeyCode.Char 'b' => i.go_prev_char
            | KeyCode.Char 'f' => i.go_next_char
            | KeyCode.Char 'h' => i.delete_prev_char
            | KeyCode.Char 'd' => i.delete_next_char
            | KeyCode.Char 'u' => i.delete_line
            | _ => i
          else
            match k.code with
            | KeyCode.Char c => i.insert_char c
            | KeyCode.Backspace => i.delete_prev_char
            | KeyCode.Delete => i.delete_next_char
            | KeyCode.Left => i.go_prev_char
            | KeyCode.Right => i.go_next_char
            | KeyCode.Home => i.go_start
            | KeyCode.End => i.go_end
            | _ => i
      | _ => i
  | _ => i

/-! ### ratatui ListState -/

/-- `usize::MAX` (selection indices are `usize` in ratatui). -/
def USIZE_MAX : Nat := 2 ^ 64 - 1

/-- `ratatui::widgets::ListState` (the scroll `offset` field is part of
the out-of-scope rendering layer and carries no control logic). -/
structure ListState where
  selected : Option Nat
  deriving DecidableEq

/-- `ListState::select`. -/
def ListState.select (s : ListState) (idx : Option Nat) : ListState :=
  { s with selected := idx }

/-- `ListState::select_next`: `selected.map_or(0, |i| i.saturating_add(1))` —
saturating, no wraparound; may leave the index out of bounds until the
next render clamps it. -/
def ListState.select_next (s : ListState) : ListState :=
  s.select (some (match s.selected with
    | none => 0
    | some i => min (i + 1) USIZE_MAX))

/-- `ListState::select_previous`: `selected.map_or(usize::MAX, |i| i.saturating_sub(1))`. -/
def ListState.select_previous (s : ListState) : ListState :=
  s.select (some (match s.selected with
    | none => USIZE_MAX
    | some i => i - 1))

/-! ### main.rs: application state, key classification, action handling -/

/-- `models.rs`: the cached note collection plus the list widget state. -/
structure NoteList where
  items : List Note
  state : ListState
  deriving DecidableEq

/-- `main.rs` `enum Screen`. -/
inductive Screen where
  | List
  | Form
  | ExitConfirm
  deriving DecidableEq

/-- `main.rs` `enum FocusedInput`. -/
inductive FocusedInput where
  | Title
  | Content
  deriving DecidableEq

/-- `main.rs` `enum ListAction`. -/
inductive ListAction where
  | MoveUp
  | MoveDown
  | AddNote
  | SelectNote
  | DeleteNote
  | Quit
  deriving DecidableEq

/-- `main.rs` `enum FormAction`. -/
inductive FormAction where
  | Save
  | ToggleInput
  | UpdateInput (e : Event)
  | Exit
  deriving DecidableEq

/-- `main.rs` `enum ExitAction`. -/
inductive ExitAction where
  | Confirm
  | Cancel
  deriving DecidableEq

/-- `main.rs` `enum Action`. -/
inductive Action where
  | List (a : ListAction)
  | Form (a : FormAction)
  | Exit (a : ExitAction)
  deriving DecidableEq

/-- `main.rs` `struct App`. -/
structure App where
  db : Database
  notes : NoteList
  current_screen : Screen
  title_input : Input
  content_input : Input
  focused_input : FocusedInput
  should_quit : Bool
  deriving DecidableEq

/-- `App::handle_key`: pure classification of a key event into an
optional action, depending only on the current screen and the key
(the Rust body reads `self.current_screen` and writes nothing).
Note that the event's `kind` is never inspected: release and repeat
events classify exactly like presses. -/
def App.handle_key (app : App) (key : KeyEvent) (event : Event) : Option Action :=
  match app.current_screen with
  | Screen.List =>
      if key.code = KeyCode.Char 'q' ∨ key.code = KeyCode.Esc then
        some (Action.List ListAction.Quit)
      else if key.code = KeyCode.Char 'j' ∨ key.code = KeyCode.Down then
        some (Action.List ListAction.MoveDown)
      else if key.code = KeyCode.Char 'k' ∨ key.code = KeyCode.Up then
        some (Action.List ListAction.MoveUp)
      else if key.code = KeyCode.Enter ∨ key.code = KeyCode.Char 'e' then
        some (Action.List ListAction.SelectNote)
      else if key.code = KeyCode.Char 'a' ∨ key.code = KeyCode.Char 'i' then
        some (Action.List ListAction.AddNote)
      else if key.code = KeyCode.Char 'd' then
        some (Action.List ListAction.DeleteNote)
      else none
  | Screen.Form =>
      if key.modifiers = KeyModifiers.CONTROL ∧ key.code = KeyCode.Char 's' then
        some (Action.Form FormAction.Save)
      else if key.code = KeyCode.Tab then
        some (Action.Form FormAction.ToggleInput)
      else if key.code = KeyCode.Esc then
        some (Action.Form FormAction.Exit)
      else
        some (Action.Form (FormAction.UpdateInput event))
  | Screen.ExitConfirm =>
      if key.code = KeyCode.Esc then
        some (Action.Exit ExitAction.Cancel)
      else if key.code = KeyCode.Char 'q' then
        some (Action.Exit ExitAction.Confirm)
      else none

/-- `App::save_note`.  The Rust indexing `self.notes.items[selected_index]`
would panic out of bounds; the guard branch is dead under the cursor
invariant proved below. -/
def App.save_note (app : App) : App :=
  match app.notes.state.selected with
  | none => app
  | some selected_index =>
      if h : selected_index < app.notes.items.length then
        let r := app.db.update_note (app.notes.items[selected_index].id)
          app.title_input.value app.content_input.value
        { app with db := r.2,
                   notes := { app.notes with items := app.notes.items.set selected_index r.1 } }
      else app

/-- `App::toggle_input`. -/
def App.toggle_input (app : App) : App :=
  { app with focused_input :=
      match app.focused_input with
      | FocusedInput.Title => FocusedInput.Content
      | FocusedInput.Content => FocusedInput.Title }

/-- `App::add_note`: store insert, push onto the cache, select the new
last index. -/
def App.add_note (app : App) : App :=
  let r := app.db.add_note "New note" ""
  let items := app.notes.items ++ [r.1]
  { app with db := r.2,
             notes := { items := items,
                        state := app.notes.state.select (some (items.length - 1)) } }

/-- `App::delete_note`: store delete of the selected note's id, removal
from the cache, then `if selected_index != 0 { select(Some(index - 1)) }`
— when the removed index was 0 the selection is left at `Some 0`, even if
the collection became empty (the next List render clamps it). -/
def App.delete_note (app : App) : App :=
  match app.notes.state.selected with
  | none => app
  | some selected_index =>
      if h : selected_index < app.notes.items.length then
        let db := app.db.delete_note (app.notes.items[selected_index].id)
        let items := app.notes.items.eraseIdx selected_index
        let st := if selected_index ≠ 0
          then app.notes.state.select (some (selected_index - 1))
          else app.notes.state
        { app with db := db, notes := { items := items, state := st } }
      else app

/-- `App::handle_action`: performs the effect of one action and returns
the optional follow-up action — syntactically `None` on every path, as in
the Rust source. -/
def App.handle_action (app : App) (action : Action) : Option Action × App :=
  match action with
  | Action.List la =>
      (none, match la with
        | ListAction.Quit => { app with current_screen := Screen.ExitConfirm }
        | ListAction.MoveUp =>
            { app with notes := { app.notes with state := app.notes.state.select_previous } }
        | ListAction.MoveDown =>
            { app with notes := { app.notes with state := app.notes.state.select_next } }
        | ListAction.AddNote =>
            let a := app.add_note
            { a with title_input := a.title_input.reset,
                     content_input := a.content_input.reset,
                     current_screen := Screen.Form }
        | ListAction.DeleteNote => app.delete_note
        | ListAction.SelectNote =>
            let a := { app with current_screen := Screen.Form }
            match a.notes.state.selected with
            | none => a
            | some index =>
                if h : index < a.notes.items.length then
                  let current_note := a.notes.items[index]
                  { a with title_input := a.title_input.with_value current_note.title,
                           content_input := a.content_input.with_value current_note.content }
                else a)
  | Action.Form fa =>
      (none, match fa with
        | FormAction.Save => app.save_note
        | FormAction.ToggleInput => app.toggle_input
        | FormAction.UpdateInput e =>
            match app.focused_input with
            | FocusedInput.Title =>
                { app with title_input := app.title_input.handle_event e }
            | FocusedInput.Content =>
                { app with content_input := app.content_input.handle_event e }
        | FormAction.Exit => { app with current_screen := Screen.List })
  | Action.Exit ea =>
      (none, match ea with
        | ExitAction.Confirm => { app with should_quit := true }
        | ExitAction.Cancel => { app with current_screen := Screen.List })

/-- The `while action.is_some()` chaining loop of `App::run`, with fuel.
`handle_action` always returns `none` as follow-up, so any fuel ≥ 1 gives
the loop's exact behaviour. -/
def App.run_actions : Nat → App → Option Action → App
  | _, app, none => app
  | 0, app, some _ => app
  | fuel + 1, app, some a =>
      let r := app.handle_action a
      App.run_actions fuel r.2 r.1

/-- The event-processing part of one `App::run` iteration: non-key events
are ignored; a key event is classified and its action chain applied. -/
def App.process_event (app : App) (e : Event) : App :=
  match e with
  | Event.key k => App.run_actions 2 app (app.handle_key k e)
  | _ => app

/-- The effect of `terminal.draw(|f| self.render(f))` on controller
state: rendering the List screen's stateful `List` widget clamps the
selection (ratatui `render_list`): on an empty list the selection is
reset to none; an out-of-bounds index is clamped to the last item.  The
Form and ExitConfirm screens render no stateful widget. -/
def App.render_clamp (app : App) : App :=
  match app.current_screen with
  | Screen.List =>
      if app.notes.items.isEmpty then
        { app with notes := { app.notes with state := app.notes.state.select none } }
      else
        match app.notes.state.selected with
        | some s =>
            if s ≥ app.notes.items.length then
              { app with notes := { app.notes with
                  state := app.notes.state.select (some (app.notes.items.length - 1)) } }
            else app
        | none => app
  | _ => app

/-- One full iteration of the `App::run` loop, from one input-wait point
to the next: process the event; if the app is now quitting the loop
exits, otherwise the next `terminal.draw` runs (clamping the selection)
before the next event is read. -/
def App.step_event (app : App) (e : Event) : App :=
  let a := app.process_event e
  if a.should_quit then a else a.render_clamp

/-- `main()` up to the first `terminal.draw`: read all notes, select
index 0 iff any exist, start on the List screen with default inputs. -/
def startup (db : Database) : App :=
  let notes := db.get_all_notes
  let list_state : ListState := ⟨none⟩
  let list_state := if notes.isEmpty then list_state else list_state.select (some 0)
  { db := db,
    notes := { items := notes, state := list_state },
    current_screen := Screen.List,
    title_input := Input.default,
    content_input := Input.default,
    focused_input := FocusedInput.Title,
    should_quit := false }

/-- States of the interactive loop at its input-wait point (`event::read()`),
starting from `main`'s startup state (after the first draw) and following
any sequence of input events while the app has not quit. -/
inductive Reachable (db0 : Database) : App → Prop
  | start : Reachable db0 (startup db0).render_clamp
  | step (a : App) (e : Event) :
      Reachable db0 a → a.should_quit = false → Reachable db0 (a.step_event e)

/-! ### Invariants -/

/-- The note rows are strictly sorted by id. -/
def idSorted (l : List Note) : Prop :=
  List.Pairwise (fun a b => a.id < b.id) l

/-- Selection cursor validity: none exactly on the empty collection,
otherwise an in-bounds index. -/
def cursorOk (app : App) : Prop :=
  match app.notes.state.selected with
  | none => app.notes.items = []
  | some i => i < app.notes.items.length

instance (app : App) : Decidable (cursorOk app) := by
  unfold cursorOk
  cases app.notes.state.selected with
  | none => exact inferInstance
  | some i => exact inferInstance

/-- The combined state invariant: the cached collection mirrors the store
table, the table is id-sorted with all ids below the autoincrement
counter, and the cursor is valid. -/
def Inv (app : App) : Prop :=
  app.notes.items = app.db.rows ∧
  idSorted app.db.rows ∧
  (∀ r ∈ app.db.rows, r.id < app.db.nextId) ∧
  cursorOk app

instance (app : App) : Decidable (Inv app) := by
  unfold Inv idSorted
  exact inferInstance

/-- Well-formedness of the store file found at startup: table in id
order, autoincrement counter above every existing id. -/
def DBInit (db : Database) : Prop :=
  idSorted db.rows ∧ ∀ r ∈ db.rows, r.id < db.nextId

instance (db : Database) : Decidable (DBInit db) := by
  unfold DBInit idSorted
  exact inferInstance

/-! ### List lemmas -/

theorem insertById_of_forall_lt (n : Note) (l : List Note)
    (h : ∀ m ∈ l, n.id < m.id) : insertById n l = n :: l := by
  cases l with
  | nil => rfl
  | cons m ms =>
      have hle : n.id ≤ m.id := le_of_lt (h m (by simp))
      simp only [insertById]
      rw [if_pos hle]

theorem sortById_eq_self {l : List Note}
    (h : List.Pairwise (fun a b => a.id < b.id) l) : sortById l = l := by
  induction l with
  | nil => rfl
  | cons n ns ih =>
      rw [List.pairwise_cons] at h
      rw [sortById, ih h.2, insertById_of_forall_lt n ns h.1]

theorem pairwise_ne_of_idSorted {l : List Note}
    (h : List.Pairwise (fun a b => a.id < b.id) l) :
    List.Pairwise (fun a b => a.id ≠ b.id) l :=
  h.imp (fun hab => ne_of_lt hab)

theorem map_eq_self_of_forall {l : List Note} {f : Note → Note}
    (h : ∀ y ∈ l, f y = y) : l.map f = l := by
  induction l with
  | nil => rfl
  | cons x xs ih =>
      rw [List.map_cons, h x (by simp), ih (fun y hy => h y (by simp [hy]))]

theorem filter_ne_eq_eraseIdx (l : List Note) :
    ∀ (i : Nat), (h : i < l.length) →
      List.Pairwise (fun a b => a.id ≠ b.id) l →
      l.filter (fun r => r.id != l[i].id) = l.eraseIdx i := by
  induction l with
  | nil => intro i h _; simp at h
  | cons x xs ih =>
      intro i h hp
      rw [List.pairwise_cons] at hp
      cases i with
      | zero =>
          simp only [List.getElem_cons_zero, List.eraseIdx_cons_zero, List.filter_cons]
          rw [if_neg (by simp)]
          refine List.filter_eq_self.mpr (fun y hy => ?_)
          simp only [bne_iff_ne, ne_eq]
          exact fun e => (hp.1 y hy) e.symm
      | succ i =>
          have hi : i < xs.length := by simpa using h
          have hx : x.id ≠ xs[i].id := hp.1 _ (List.getElem_mem hi)
          simp only [List.getElem_cons_succ, List.eraseIdx_cons_succ, List.filter_cons]
          rw [if_pos (by simpa [bne_iff_ne] using hx)]
          rw [ih i hi hp.2]

theorem map_update_eq_set (l : List Note) (t c : String) :
    ∀ (i : Nat), (h : i < l.length) →
      List.Pairwise (fun a b => a.id ≠ b.id) l →
      l.map (fun r => if r.id = l[i].id then { r with title := t, content := c } else r)
        = l.set i { l[i] with title := t, content := c } := by
  induction l with
  | nil => intro i h _; simp at h
  | cons x xs ih =>
      intro i h hp
      rw [List.pairwise_cons] at hp
      cases i with
      | zero =>
          simp only [List.getElem_cons_zero, List.map_cons, List.set_cons_zero, if_true]
          congr 1
          refine map_eq_self_of_forall (fun y hy => ?_)
          rw [if_neg (fun e => (hp.1 y hy) e.symm)]
      | succ i =>
          have hi : i < xs.length := by simpa using h
          have hx : x.id ≠ xs[i].id := hp.1 _ (List.getElem_mem hi)
          simp only [List.getElem_cons_succ, List.map_cons, List.set_cons_succ]
          rw [if_neg hx]
          rw [ih i hi hp.2]

theorem idSorted_set (l : List Note) (n : Note) :
    ∀ (i : Nat), (h : i < l.length) → n.id = l[i].id →
      List.Pairwise (fun a b => a.id < b.id) l →
      List.Pairwise (fun a b => a.id < b.id) (l.set i n) := by
  induction l with
  | nil => intro i h _ _; simp at h
  | cons x xs ih =>
      intro i h hid hp
      rw [List.pairwise_cons] at hp
      cases i with
      | zero =>
          rw [List.set_cons_zero, List.pairwise_cons]
          refine ⟨fun b hb => ?_, hp.2⟩
          simpa [hid] using hp.1 b hb
      | succ i =>
          have hi : i < xs.length := by simpa using h
          rw [List.set_cons_succ, List.pairwise_cons]
          refine ⟨fun b hb => ?_, ih i hi (by simpa using hid) hp.2⟩
          rcases List.mem_or_eq_of_mem_set hb with hb' | rfl
          · exact hp.1 b hb'
          · have := hp.1 _ (List.getElem_mem hi)
            simpa [hid] using this

theorem idSorted_append (l : List Note) (n : Note)
    (hp : List.Pairwise (fun a b => a.id < b.id) l)
    (h : ∀ m ∈ l, m.id < n.id) :
    List.Pairwise (fun a b => a.id < b.id) (l ++ [n]) := by
  rw [List.pairwise_append]
  exact ⟨hp, List.pairwise_singleton _ _, fun a ha b hb => by
    rw [List.mem_singleton] at hb
    subst hb
    exact h a ha⟩

/-! ### Event-loop step lemmas -/

/-- `App::handle_action` returns `None` as follow-up action on every
path, exactly as in the source. -/
theorem handle_action_fst (app : App) (act : Action) :
    (app.handle_action act).1 = none := by
  cases act <;> rfl

/-- One action processed with the chaining loop: a single
`handle_action` call. -/
theorem run_actions_some (app : App) (act : Action) :
    App.run_actions 2 app (some act) = (app.handle_action act).2 := by
  rw [App.run_actions]
  have h := handle_action_fst app act
  rcases hr : app.handle_action act with ⟨fst, snd⟩
  rw [hr] at h
  simp at h
  subst h
  rfl

/-- Helper: the state after one classified action followed by the exit
check and (when the loop continues) the render pass. -/
def App.step_action (app : App) (act : Action) : App :=
  let b := (app.handle_action act).2
  if b.should_quit then b else b.render_clamp

/-- One loop iteration on a key event whose classification is known. -/
theorem step_event_key_some {app : App} {k : KeyEvent} {act : Action}
    (h : app.handle_key k (Event.key k) = some act) :
    app.step_event (Event.key k) = app.step_action act := by
  simp only [App.step_event, App.process_event, h, run_actions_some, App.step_action]

/-- One loop iteration on a key event that classifies to no action. -/
theorem step_event_key_none {app : App} {k : KeyEvent}
    (h : app.handle_key k (Event.key k) = none) :
    app.step_event (Event.key k) =
      if app.should_quit then app else app.render_clamp := by
  simp only [App.step_event, App.process_event, h, App.run_actions]

/-- A valid cursor makes the render clamp a no-op on controller state. -/
theorem render_clamp_eq_self {app : App} (h : cursorOk app) :
    app.render_clamp = app := by
  obtain ⟨db, ⟨items, ⟨sel⟩⟩, scr, ti, ci, fi, sq⟩ := app
  cases scr
  case Form => rfl
  case ExitConfirm => rfl
  case List =>
    cases sel with
    | none =>
        replace h : items = [] := h
        simp only [App.render_clamp]
        rw [if_pos (by simp [h])]
        rfl
    | some i =>
        replace h : i < items.length := h
        simp only [App.render_clamp]
        rw [if_neg (by simp only [List.isEmpty_iff]; intro he; rw [he] at h; simp at h)]
        rw [if_neg (by omega)]

/-- Frame of the render pass: it can only touch the selection. -/
theorem render_clamp_frame (app : App) :
    app.render_clamp.notes.items = app.notes.items ∧
    app.render_clamp.db = app.db ∧
    app.render_clamp.current_screen = app.current_screen ∧
    app.render_clamp.should_quit = app.should_quit ∧
    app.render_clamp.title_input = app.title_input ∧
    app.render_clamp.content_input = app.content_input := by
  obtain ⟨db, ⟨items, ⟨sel⟩⟩, scr, ti, ci, fi, sq⟩ := app
  cases scr
  case Form => simp [App.render_clamp]
  case ExitConfirm => simp [App.render_clamp]
  case List =>
    simp only [App.render_clamp]
    split
    · simp
    · cases sel with
      | none => simp
      | some i =>
          simp only []
          split <;> simp

/-- The data part of the invariant (everything except the cursor). -/
def DataInv (app : App) : Prop :=
  app.notes.items = app.db.rows ∧
  idSorted app.db.rows ∧
  ∀ r ∈ app.db.rows, r.id < app.db.nextId

/-- On the List screen, rendering restores the full invariant provided
the selection is not `none` on a non-empty collection. -/
theorem inv_render_clamp {app : App} (hs : app.current_screen = Screen.List)
    (hd : DataInv app)
    (hc : (∃ i, app.notes.state.selected = some i) ∨ app.notes.items = []) :
    Inv app.render_clamp := by
  obtain ⟨h1, h2, h3, h4, h5, h6⟩ := render_clamp_frame app
  refine ⟨by rw [h1, h2]; exact hd.1, by rw [h2]; exact hd.2.1,
    by rw [h2]; exact hd.2.2, ?_⟩
  clear h1 h2 h3 h4 h5 h6 hd
  obtain ⟨db, ⟨items, ⟨sel⟩⟩, scr, ti, ci, fi, sq⟩ := app
  subst hs
  simp only [App.render_clamp]
  by_cases he : items = []
  · rw [if_pos (by simp [he])]
    show cursorOk _
    unfold cursorOk
    simpa using he
  · rw [if_neg (by simp [he])]
    rcases hc with ⟨i, hsel⟩ | hemp
    · subst hsel
      simp only []
      have hlen : 0 < items.length := List.length_pos.mpr he
      by_cases hge : i ≥ items.length
      · rw [if_pos hge]
        show cursorOk _
        unfold cursorOk
        simp only [ListState.select]
        omega
      · rw [if_neg hge]
        show cursorOk _
        unfold cursorOk
        simp only []
        omega
    · exact absurd hemp he

/-- Any action whose result already has a valid cursor preserves the
invariant through the rest of the loop iteration. -/
theorem inv_of_cursorOk {b : App} (hd : DataInv b) (hc : cursorOk b) :
    Inv (if b.should_quit then b else b.render_clamp) := by
  rw [render_clamp_eq_self hc, ite_self]
  exact ⟨hd.1, hd.2.1, hd.2.2, hc⟩

/-! ### Invariant preservation, action by action -/

theorem inv_action_quit {app : App} (h : Inv app) :
    Inv (app.step_action (Action.List ListAction.Quit)) := by
  obtain ⟨h1, h2, h3, h4⟩ := h
  exact inv_of_cursorOk ⟨h1, h2, h3⟩ h4

theorem inv_action_confirm {app : App} (h : Inv app) :
    Inv (app.step_action (Action.Exit ExitAction.Confirm)) := by
  obtain ⟨h1, h2, h3, h4⟩ := h
  exact inv_of_cursorOk ⟨h1, h2, h3⟩ h4

theorem inv_action_cancel {app : App} (h : Inv app) :
    Inv (app.step_action (Action.Exit ExitAction.Cancel)) := by
  obtain ⟨h1, h2, h3, h4⟩ := h
  exact inv_of_cursorOk ⟨h1, h2, h3⟩ h4

theorem inv_action_form_exit {app : App} (h : Inv app) :
    Inv (app.step_action (Action.Form FormAction.Exit)) := by
  obtain ⟨h1, h2, h3, h4⟩ := h
  exact inv_of_cursorOk ⟨h1, h2, h3⟩ h4

theorem inv_action_toggle {app : App} (h : Inv app) :
    Inv (app.step_action (Action.Form FormAction.ToggleInput)) := by
  obtain ⟨h1, h2, h3, h4⟩ := h
  exact inv_of_cursorOk ⟨h1, h2, h3⟩ h4

theorem inv_action_update {app : App} (h : Inv app) (e : Event) :
    Inv (app.step_action (Action.Form (FormAction.UpdateInput e))) := by
  obtain ⟨h1, h2, h3, h4⟩ := h
  apply inv_of_cursorOk
  · simp only [App.handle_action]
    cases hfi : app.focused_input <;> exact ⟨h1, h2, h3⟩
  · simp only [App.handle_action]
    cases hfi : app.focused_input <;> exact h4

theorem inv_action_select {app : App} (h : Inv app) :
    Inv (app.step_action (Action.List ListAction.SelectNote)) := by
  obtain ⟨h1, h2, h3, h4⟩ := h
  apply inv_of_cursorOk
  · simp only [App.handle_action]
    cases hsel : app.notes.state.selected with
    | none => exact ⟨h1, h2, h3⟩
    | some i =>
        simp only []
        by_cases hlt : i < app.notes.items.length
        · rw [dif_pos hlt]
          exact ⟨h1, h2, h3⟩
        · rw [dif_neg hlt]
          exact ⟨h1, h2, h3⟩
  · simp only [App.handle_action]
    cases hsel : app.notes.state.selected with
    | none => exact h4
    | some i =>
        simp only []
        by_cases hlt : i < app.notes.items.length
        · rw [dif_pos hlt]
          exact h4
        · rw [dif_neg hlt]
          exact h4

theorem inv_action_move_up {app : App} (h : Inv app)
    (hs : app.current_screen = Screen.List) (hq : app.should_quit = false) :
    Inv (app.step_action (Action.List ListAction.MoveUp)) := by
  obtain ⟨h1, h2, h3, h4⟩ := h
  have hbq : (app.handle_action (Action.List ListAction.MoveUp)).2.should_quit = false := hq
  unfold App.step_action
  rw [if_neg (by rw [hbq]; simp)]
  apply inv_render_clamp
  · exact hs
  · exact ⟨h1, h2, h3⟩
  · exact Or.inl ⟨_, rfl⟩

theorem inv_action_move_down {app : App} (h : Inv app)
    (hs : app.current_screen = Screen.List) (hq : app.should_quit = false) :
    Inv (app.step_action (Action.List ListAction.MoveDown)) := by
  obtain ⟨h1, h2, h3, h4⟩ := h
  have hbq : (app.handle_action (Action.List ListAction.MoveDown)).2.should_quit = false := hq
  unfold App.step_action
  rw [if_neg (by rw [hbq]; simp)]
  apply inv_render_clamp
  · exact hs
  · exact ⟨h1, h2, h3⟩
  · exact Or.inl ⟨_, rfl⟩

theorem inv_action_add {app : App} (h : Inv app) :
    Inv (app.step_action (Action.List ListAction.AddNote)) := by
  obtain ⟨h1, h2, h3, h4⟩ := h
  obtain ⟨⟨rows, nid, log⟩, ⟨items, ⟨sel⟩⟩, scr, ti, ci, fi, sq⟩ := app
  replace h1 : items = rows := h1
  subst h1
  replace h2 : List.Pairwise (fun a b => a.id < b.id) items := h2
  replace h3 : ∀ r ∈ items, r.id < nid := h3
  apply inv_of_cursorOk
  · refine ⟨rfl, ?_, ?_⟩
    · show List.Pairwise (fun a b => a.id < b.id) (items ++ [(⟨nid, "New note", ""⟩ : Note)])
      exact idSorted_append items _ h2 (fun m hm => h3 m hm)
    · show ∀ r ∈ items ++ [(⟨nid, "New note", ""⟩ : Note)], r.id < nid + 1
      intro r hr
      rcases List.mem_append.mp hr with hr | hr
      · have := h3 r hr
        omega
      · rw [List.mem_singleton] at hr
        subst hr
        show nid < nid + 1
        omega
  · show (items ++ [(⟨nid, "New note", ""⟩ : Note)]).length - 1
        < (items ++ [(⟨nid, "New note", ""⟩ : Note)]).length
    simp only [List.length_append, List.length_cons, List.length_nil]
    omega

theorem inv_action_save {app : App} (h : Inv app) :
    Inv (app.step_action (Action.Form FormAction.Save)) := by
  obtain ⟨h1, h2, h3, h4⟩ := h
  obtain ⟨⟨rows, nid, log⟩, ⟨items, ⟨sel⟩⟩, scr, ti, ci, fi, sq⟩ := app
  replace h1 : items = rows := h1
  subst h1
  replace h2 : List.Pairwise (fun a b => a.id < b.id) items := h2
  replace h3 : ∀ r ∈ items, r.id < nid := h3
  cases sel with
  | none =>
      apply inv_of_cursorOk
      · exact ⟨rfl, h2, h3⟩
      · exact h4
  | some i =>
      replace h4 : i < items.length := h4
      have hne := pairwise_ne_of_idSorted h2
      apply inv_of_cursorOk
      · simp only [App.handle_action, App.save_note, Database.update_note]
        rw [dif_pos h4]
        refine ⟨?_, ?_, ?_⟩
        · show items.set i ⟨items[i].id, ti.value, ci.value⟩
            = items.map (fun r => if r.id = items[i].id
                then { r with title := ti.value, content := ci.value } else r)
          rw [map_update_eq_set items ti.value ci.value i h4 hne]
        · show List.Pairwise (fun a b => a.id < b.id)
            (items.map (fun r => if r.id = items[i].id
              then { r with title := ti.value, content := ci.value } else r))
          rw [map_update_eq_set items ti.value ci.value i h4 hne]
          exact idSorted_set items _ i h4 rfl h2
        · show ∀ r ∈ items.map (fun r => if r.id = items[i].id
              then { r with title := ti.value, content := ci.value } else r), r.id < nid
          rw [map_update_eq_set items ti.value ci.value i h4 hne]
          intro r hr
          rcases List.mem_or_eq_of_mem_set hr with hr' | rfl
          · exact h3 r hr'
          · exact h3 items[i] (List.getElem_mem h4)
      · simp only [App.handle_action, App.save_note, Database.update_note]
        rw [dif_pos h4]
        show i < (items.set i ⟨items[i].id, ti.value, ci.value⟩).length
        rw [List.length_set]
        exact h4

theorem inv_action_delete {app : App} (h : Inv app)
    (hs : app.current_screen = Screen.List) (hq : app.should_quit = false) :
    Inv (app.step_action (Action.List ListAction.DeleteNote)) := by
  obtain ⟨h1, h2, h3, h4⟩ := h
  obtain ⟨⟨rows, nid, log⟩, ⟨items, ⟨sel⟩⟩, scr, ti, ci, fi, sq⟩ := app
  replace h1 : items = rows := h1
  subst h1
  replace h2 : List.Pairwise (fun a b => a.id < b.id) items := h2
  replace h3 : ∀ r ∈ items, r.id < nid := h3
  replace hs : scr = Screen.List := hs
  subst hs
  replace hq : sq = false := hq
  subst hq
  cases sel with
  | none =>
      apply inv_of_cursorOk
      · exact ⟨rfl, h2, h3⟩
      · exact h4
  | some i =>
      replace h4 : i < items.length := h4
      have hne := pairwise_ne_of_idSorted h2
      have hfilter : items.filter (fun r => r.id != items[i].id) = items.eraseIdx i :=
        filter_ne_eq_eraseIdx items i h4 hne
      unfold App.step_action
      simp only [App.handle_action, App.delete_note, Database.delete_note]
      rw [dif_pos h4]
      rw [if_neg (by simp)]
      apply inv_render_clamp
      · rfl
      · refine ⟨?_, ?_, ?_⟩
        · show items.eraseIdx i = items.filter (fun r => r.id != items[i].id)
          rw [hfilter]
        · show List.Pairwise (fun a b => a.id < b.id)
            (items.filter (fun r => r.id != items[i].id))
          rw [hfilter]
          exact List.Pairwise.sublist (List.eraseIdx_sublist items i) h2
        · show ∀ r ∈ items.filter (fun r => r.id != items[i].id), r.id < nid
          rw [hfilter]
          intro r hr
          exact h3 r ((List.eraseIdx_sublist items i).subset hr)
      · left
        by_cases hi : i ≠ 0
        · rw [if_pos hi]
          exact ⟨_, rfl⟩
        · rw [if_neg hi]
          exact ⟨_, rfl⟩

/-- The full key dispatch: the invariant is preserved by one loop
iteration from any live state. -/
theorem inv_step_event {app : App} (h : Inv app) (hq : app.should_quit = false)
    (e : Event) : Inv (app.step_event e) := by
  cases e with
  | resize w hh =>
      show Inv (if app.should_quit then app else app.render_clamp)
      rw [hq]
      rw [if_neg (by simp)]
      rw [render_clamp_eq_self h.2.2.2]
      exact h
  | key k =>
      rcases k with ⟨code, m, kind⟩
      cases hsc : app.current_screen
      case List =>
        by_cases c1 : code = KeyCode.Char 'q' ∨ code = KeyCode.Esc
        · have hk : app.handle_key ⟨code, m, kind⟩ (Event.key ⟨code, m, kind⟩)
              = some (Action.List ListAction.Quit) := by
            simp only [App.handle_key, hsc]
            rw [if_pos c1]
          rw [step_event_key_some hk]
          exact inv_action_quit h
        by_cases c2 : code = KeyCode.Char 'j' ∨ code = KeyCode.Down
        · have hk : app.handle_key ⟨code, m, kind⟩ (Event.key ⟨code, m, kind⟩)
              = some (Action.List ListAction.MoveDown) := by
            simp only [App.handle_key, hsc]
            rw [if_neg c1, if_pos c2]
          rw [step_event_key_some hk]
          exact inv_action_move_down h hsc hq
        by_cases c3 : code = KeyCode.Char 'k' ∨ code = KeyCode.Up
        · have hk : app.handle_key ⟨code, m, kind⟩ (Event.key ⟨code, m, kind⟩)
              = some (Action.List ListAction.MoveUp) := by
            simp only [App.handle_key, hsc]
            rw [if_neg c1, if_neg c2, if_pos c3]
          rw [step_event_key_some hk]
          exact inv_action_move_up h hsc hq
        by_cases c4 : code = KeyCode.Enter ∨ code = KeyCode.Char 'e'
        · have hk : app.handle_key ⟨code, m, kind⟩ (Event.key ⟨code, m, kind⟩)
              = some (Action.List ListAction.SelectNote) := by
            simp only [App.handle_key, hsc]
            rw [if_neg c1, if_neg c2, if_neg c3, if_pos c4]
          rw [step_event_key_some hk]
          exact inv_action_select h
        by_cases c5 : code = KeyCode.Char 'a' ∨ code = KeyCode.Char 'i'
        · have hk : app.handle_key ⟨code, m, kind⟩ (Event.key ⟨code, m, kind⟩)
              = some (Action.List ListAction.AddNote) := by
            simp only [App.handle_key, hsc]
            rw [if_neg c1, if_neg c2, if_neg c3, if_neg c4, if_pos c5]
          rw [step_event_key_some hk]
          exact inv_action_add h
        by_cases c6 : code = KeyCode.Char 'd'
        · have hk : app.handle_key ⟨code, m, kind⟩ (Event.key ⟨code, m, kind⟩)
              = some (Action.List ListAction.DeleteNote) := by
            simp only [App.handle_key, hsc]
            rw [if_neg c1, if_neg c2, if_neg c3, if_neg c4, if_neg c5, if_pos c6]
          rw [step_event_key_some hk]
          exact inv_action_delete h hsc hq
        · have hk : app.handle_key ⟨code, m, kind⟩ (Event.key ⟨code, m, kind⟩) = none := by
            simp only [App.handle_key, hsc]
            rw [if_neg c1, if_neg c2, if_neg c3, if_neg c4, if_neg c5, if_neg c6]
          rw [step_event_key_none hk]
          rw [hq]
          rw [if_neg (by simp)]
          rw [render_clamp_eq_self h.2.2.2]
          exact h
      case Form =>
        by_cases c1 : m = KeyModifiers.CONTROL ∧ code = KeyCode.Char 's'
        · have hk : app.handle_key ⟨code, m, kind⟩ (Event.key ⟨code, m, kind⟩)
              = some (Action.Form FormAction.Save) := by
            simp only [App.handle_key, hsc]
            rw [if_pos c1]
          rw [step_event_key_some hk]
          exact inv_action_save h
        by_cases c2 : code = KeyCode.Tab
        · have hk : app.handle_key ⟨code, m, kind⟩ (Event.key ⟨code, m, kind⟩)
              = some (Action.Form FormAction.ToggleInput) := by
            simp only [App.handle_key, hsc]
            rw [if_neg c1, if_pos c2]
          rw [step_event_key_some hk]
          exact inv_action_toggle h
        by_cases c3 : code = KeyCode.Esc
        · have hk : app.handle_key ⟨code, m, kind⟩ (Event.key ⟨code, m, kind⟩)
              = some (Action.Form FormAction.Exit) := by
            simp only [App.handle_key, hsc]
            rw [if_neg c1, if_neg c2, if_pos c3]
          rw [step_event_key_some hk]
          exact inv_action_form_exit h
        · have hk : app.handle_key ⟨code, m, kind⟩ (Event.key ⟨code, m, kind⟩)
              = some (Action.Form (FormAction.UpdateInput (Event.key ⟨code, m, kind⟩))) := by
            simp only [App.handle_key, hsc]
            rw [if_neg c1, if_neg c2, if_neg c3]
          rw [step_event_key_some hk]
          exact inv_action_update h _
      case ExitConfirm =>
        by_cases c1 : code = KeyCode.Esc
        · have hk : app.handle_key ⟨code, m, kind⟩ (Event.key ⟨code, m, kind⟩)
              = some (Action.Exit ExitAction.Cancel) := by
            simp only [App.handle_key, hsc]
            rw [if_pos c1]
          rw [step_event_key_some hk]
          exact inv_action_cancel h
        by_cases c2 : code = KeyCode.Char 'q'
        · have hk : app.handle_key ⟨code, m, kind⟩ (Event.key ⟨code, m, kind⟩)
              = some (Action.Exit ExitAction.Confirm) := by
            simp only [App.handle_key, hsc]
            rw [if_neg c1, if_pos c2]
          rw [step_event_key_some hk]
          exact inv_action_confirm h
        · have hk : app.handle_key ⟨code, m, kind⟩ (Event.key ⟨code, m, kind⟩) = none := by
            simp only [App.handle_key, hsc]
            rw [if_neg c1, if_neg c2]
          rw [step_event_key_none hk]
          rw [hq]
          rw [if_neg (by simp)]
          rw [render_clamp_eq_self h.2.2.2]
          exact h

/-- The invariant holds in `main`'s startup state. -/
theorem inv_startup {db0 : Database} (hdb : DBInit db0) : Inv (startup db0) := by
  obtain ⟨hsort, hbound⟩ := hdb
  obtain ⟨rows, nid, log⟩ := db0
  replace hsort : List.Pairwise (fun a b => a.id < b.id) rows := hsort
  replace hbound : ∀ r ∈ rows, r.id < nid := hbound
  have hall : sortById rows = rows := sortById_eq_self hsort
  unfold startup Database.get_all_notes
  simp only [hall]
  by_cases he : rows = []
  · subst he
    exact ⟨rfl, hsort, hbound, rfl⟩
  · rw [if_neg (by simp [he])]
    refine ⟨rfl, hsort, hbound, ?_⟩
    show 0 < rows.length
    exact List.length_pos.mpr he

/-- Every reachable state of the interactive loop satisfies the
invariant. -/
theorem inv_reachable {db0 : Database} (hdb : DBInit db0) {app : App}
    (h : Reachable db0 app) : Inv app := by
  induction h with
  | start =>
      have h0 := inv_startup hdb
      rw [render_clamp_eq_self h0.2.2.2]
      exact h0
  | step a e ha hq ih => exact inv_step_event ih hq e

/-- When the chosen action does not quit, the iteration ends with the
render pass over the action's result. -/
theorem step_action_live {app : App} {act : Action}
    (hq : (app.handle_action act).2.should_quit = false) :
    app.step_action act = (app.handle_action act).2.render_clamp := by
  unfold App.step_action
  rw [if_neg (by rw [hq]; simp)]

/-- When the render pass provably leaves the action's result unchanged,
one iteration is just the action. -/
theorem step_action_eq_of_clamp_id {app : App} {act : Action}
    (h : (app.handle_action act).2.render_clamp = (app.handle_action act).2) :
    app.step_action act = (app.handle_action act).2 := by
  show (if (app.handle_action act).2.should_quit = true
      then (app.handle_action act).2
      else (app.handle_action act).2.render_clamp) = (app.handle_action act).2
  rw [h, ite_self]

/-- Closed form of the selection after a List-screen render pass. -/
theorem render_clamp_selected {app : App} (hs : app.current_screen = Screen.List) :
    app.render_clamp.notes.state.selected =
      if app.notes.items.isEmpty then none
      else match app.notes.state.selected with
        | some s => if s ≥ app.notes.items.length
            then some (app.notes.items.length - 1) else some s
        | none => none := by
  obtain ⟨⟨rows, nid, log⟩, ⟨items, ⟨sel⟩⟩, scr, ti, ci, fi, sq⟩ := app
  replace hs : scr = Screen.List := hs
  subst hs
  simp only [App.render_clamp]
  by_cases he : items = []
  · rw [if_pos (by simp [he]), if_pos (by simp [he])]
    rfl
  · rw [if_neg (by simp [he]), if_neg (by simp [he])]
    cases sel with
    | none => rfl
    | some s =>
        simp only []
        by_cases hge : s ≥ items.length
        · rw [if_pos hge, if_pos hge]
          rfl
        · rw [if_neg hge, if_neg hge]

/-! ### Claims -/

/-- C1, counterexample: the claim asserts that after every MoveDown
action a non-empty collection has a valid cursor.  From the startup state
over a one-note store, the classified MoveDown action (key down or the
letter j on the List screen) leaves the selection at index 1 in a
collection of length 1 — out of bounds.  Validity is only restored by the
render pass that follows. -/
theorem C1_counterexample :
    let db0 : Database := ⟨[⟨1, "t", "c"⟩], 2, []⟩
    let jk : KeyEvent := ⟨KeyCode.Char 'j', KeyModifiers.NONE, KeyEventKind.Press⟩
    let a := (startup db0).render_clamp
    let b := (a.handle_action (Action.List ListAction.MoveDown)).2
    a.handle_key jk (Event.key jk) = some (Action.List ListAction.MoveDown) ∧
    b.notes.items ≠ [] ∧
    b.notes.state.selected = some 1 ∧
    b.notes.items.length = 1 := by
  decide

/-- C1 (amended): at every input-wait point of the event loop — that is,
after the render pass that follows each action — a non-empty collection
has a selection `some i` with `i` in bounds, and an empty collection has
selection `none`.  Immediately after a raw MoveUp/MoveDown/DeleteNote
mutation the selection may be transiently out of bounds; the List render
clamp restores it before the next event is read. -/
theorem C1_cursor_invariant {db0 : Database} (hdb : DBInit db0) {app : App}
    (h : Reachable db0 app) :
    (app.notes.items ≠ [] →
      ∃ i, app.notes.state.selected = some i ∧ i < app.notes.items.length) ∧
    (app.notes.items = [] → app.notes.state.selected = none) := by
  have hi := inv_reachable hdb h
  obtain ⟨h1, h2, h3, h4⟩ := hi
  unfold cursorOk at h4
  constructor
  · intro hne
    cases hsel : app.notes.state.selected with
    | none =>
        rw [hsel] at h4
        exact absurd h4 hne
    | some i =>
        rw [hsel] at h4
        exact ⟨i, rfl, h4⟩
  · intro he
    cases hsel : app.notes.state.selected with
    | none => rfl
    | some i =>
        rw [hsel] at h4
        rw [he] at h4
        simp at h4

/-- C1 witness: the amended invariant evaluated at the startup state over
an empty store. -/
theorem C1_cursor_invariant_witness :
    ((startup ⟨[], 1, []⟩).render_clamp.notes.items ≠ [] →
      ∃ i, (startup ⟨[], 1, []⟩).render_clamp.notes.state.selected = some i ∧
        i < (startup ⟨[], 1, []⟩).render_clamp.notes.items.length) ∧
    ((startup ⟨[], 1, []⟩).render_clamp.notes.items = [] →
      (startup ⟨[], 1, []⟩).render_clamp.notes.state.selected = none) :=
  C1_cursor_invariant (by decide) Reachable.start

/-- C2, counterexample: with two notes and the cursor at the last index
(N - 1 = 1), one full move-down iteration leaves the cursor at 1, not 0;
with the cursor at 0, one move-up iteration leaves it at 0, not N - 1.
The ratatui cursor moves saturate — there is no wraparound. -/
theorem C2_counterexample :
    let db0 : Database := ⟨[⟨1, "a", ""⟩, ⟨2, "b", ""⟩], 3, []⟩
    let jk : KeyEvent := ⟨KeyCode.Char 'j', KeyModifiers.NONE, KeyEventKind.Press⟩
    let kk : KeyEvent := ⟨KeyCode.Char 'k', KeyModifiers.NONE, KeyEventKind.Press⟩
    let a := (startup db0).render_clamp
    let a1 := a.step_event (Event.key jk)
    a.notes.items.length = 2 ∧
    a1.notes.state.selected = some 1 ∧
    (a1.step_event (Event.key jk)).notes.state.selected = some 1 ∧
    a.notes.state.selected = some 0 ∧
    (a.step_event (Event.key kk)).notes.state.selected = some 0 := by
  decide

/-- C2 (amended): the cursor does not wrap.  With the cursor on the last
index, a move-down iteration leaves it on the last index (ratatui's
`select_next` saturates past the end and the render pass clamps it back);
a move-up at index 0 stays at 0; on an empty collection both moves leave
the whole state unchanged.  (`hmax` reflects that a Rust `Vec` length is
a `usize`.) -/
theorem C2_no_wraparound {app : App} (h : Inv app)
    (hs : app.current_screen = Screen.List) (hq : app.should_quit = false)
    (hmax : app.notes.items.length ≤ USIZE_MAX) :
    (∀ i, app.notes.state.selected = some i → i + 1 = app.notes.items.length →
      (app.step_event (Event.key ⟨KeyCode.Char 'j', KeyModifiers.NONE,
        KeyEventKind.Press⟩)).notes.state.selected = some i) ∧
    (app.notes.state.selected = some 0 →
      (app.step_event (Event.key ⟨KeyCode.Char 'k', KeyModifiers.NONE,
        KeyEventKind.Press⟩)).notes.state.selected = some 0) ∧
    (app.notes.items = [] →
      app.step_event (Event.key ⟨KeyCode.Char 'j', KeyModifiers.NONE,
        KeyEventKind.Press⟩) = app ∧
      app.step_event (Event.key ⟨KeyCode.Char 'k', KeyModifiers.NONE,
        KeyEventKind.Press⟩) = app) := by
  refine ⟨?_, ?_, ?_⟩
  · intro i hsel hlen1
    have h4 : i < app.notes.items.length := by
      have h4 := h.2.2.2
      unfold cursorOk at h4
      rw [hsel] at h4
      exact h4
    have hk : app.handle_key ⟨KeyCode.Char 'j', KeyModifiers.NONE, KeyEventKind.Press⟩
        (Event.key ⟨KeyCode.Char 'j', KeyModifiers.NONE, KeyEventKind.Press⟩)
        = some (Action.List ListAction.MoveDown) := by
      simp only [App.handle_key, hs]
      rw [if_neg (by simp), if_pos (by simp)]
    rw [step_event_key_some hk]
    have hbq : (app.handle_action (Action.List ListAction.MoveDown)).2.should_quit
        = false := hq
    rw [step_action_live hbq]
    rw [render_clamp_selected (show (app.handle_action
      (Action.List ListAction.MoveDown)).2.current_screen = Screen.List from hs)]
    simp only [App.handle_action, ListState.select_next, ListState.select, hsel]
    have hne : ¬ app.notes.items.isEmpty = true := by
      simp only [List.isEmpty_iff]
      intro he
      rw [he] at h4
      simp at h4
    rw [if_neg hne]
    rw [show min (i + 1) USIZE_MAX = i + 1 from by omega]
    rw [if_pos (by omega)]
    rw [show app.notes.items.length - 1 = i from by omega]
  · intro hsel
    have h4 : 0 < app.notes.items.length := by
      have h4 := h.2.2.2
      unfold cursorOk at h4
      rw [hsel] at h4
      exact h4
    have hk : app.handle_key ⟨KeyCode.Char 'k', KeyModifiers.NONE, KeyEventKind.Press⟩
        (Event.key ⟨KeyCode.Char 'k', KeyModifiers.NONE, KeyEventKind.Press⟩)
        = some (Action.List ListAction.MoveUp) := by
      simp only [App.handle_key, hs]
      rw [if_neg (by simp), if_neg (by simp), if_pos (by simp)]
    rw [step_event_key_some hk]
    have hbq : (app.handle_action (Action.List ListAction.MoveUp)).2.should_quit
        = false := hq
    rw [step_action_live hbq]
    rw [render_clamp_selected (show (app.handle_action
      (Action.List ListAction.MoveUp)).2.current_screen = Screen.List from hs)]
    simp only [App.handle_action, ListState.select_previous, ListState.select, hsel,
      Nat.zero_sub]
    have hne : ¬ app.notes.items.isEmpty = true := by
      simp only [List.isEmpty_iff]
      intro he
      rw [he] at h4
      simp at h4
    rw [if_neg hne]
    rw [if_neg (by omega)]
  · intro he
    obtain ⟨h1, h2, h3, h4⟩ := h
    obtain ⟨⟨rows, nid, log⟩, ⟨items, ⟨sel⟩⟩, scr, ti, ci, fi, sq⟩ := app
    replace he : items = [] := he
    subst he
    replace hs : scr = Screen.List := hs
    subst hs
    replace hq : sq = false := hq
    subst hq
    cases sel with
    | some i =>
        exfalso
        replace h4 : i < ([] : List Note).length := h4
        simp at h4
    | none => exact ⟨rfl, rfl⟩

/-- C2 witness: the amended statement evaluated on a two-note state. -/
theorem C2_no_wraparound_witness :
    (∀ i, (startup ⟨[⟨1, "a", ""⟩, ⟨2, "b", ""⟩], 3, []⟩).render_clamp.notes.state.selected
          = some i →
      i + 1 = (startup ⟨[⟨1, "a", ""⟩, ⟨2, "b", ""⟩], 3, []⟩).render_clamp.notes.items.length →
      ((startup ⟨[⟨1, "a", ""⟩, ⟨2, "b", ""⟩], 3, []⟩).render_clamp.step_event
        (Event.key ⟨KeyCode.Char 'j', KeyModifiers.NONE,
          KeyEventKind.Press⟩)).notes.state.selected = some i) ∧
    ((startup ⟨[⟨1, "a", ""⟩, ⟨2, "b", ""⟩], 3, []⟩).render_clamp.notes.state.selected
        = some 0 →
      ((startup ⟨[⟨1, "a", ""⟩, ⟨2, "b", ""⟩], 3, []⟩).render_clamp.step_event
        (Event.key ⟨KeyCode.Char 'k', KeyModifiers.NONE,
          KeyEventKind.Press⟩)).notes.state.selected = some 0) ∧
    ((startup ⟨[⟨1, "a", ""⟩, ⟨2, "b", ""⟩], 3, []⟩).render_clamp.notes.items = [] →
      (startup ⟨[⟨1, "a", ""⟩, ⟨2, "b", ""⟩], 3, []⟩).render_clamp.step_event
        (Event.key ⟨KeyCode.Char 'j', KeyModifiers.NONE, KeyEventKind.Press⟩)
        = (startup ⟨[⟨1, "a", ""⟩, ⟨2, "b", ""⟩], 3, []⟩).render_clamp ∧
      (startup ⟨[⟨1, "a", ""⟩, ⟨2, "b", ""⟩], 3, []⟩).render_clamp.step_event
        (Event.key ⟨KeyCode.Char 'k', KeyModifiers.NONE, KeyEventKind.Press⟩)
        = (startup ⟨[⟨1, "a", ""⟩, ⟨2, "b", ""⟩], 3, []⟩).render_clamp) :=
  C2_no_wraparound (by decide) (by decide) (by decide) (by decide)

/-- C3: pressing delete on the List screen with selection `i` removes the
entry at `i` from the cached collection and from the store table, and at
the next input-wait point the cursor is `i - 1` when `i ≠ 0`, stays at 0
when `i = 0` and notes remain, and is `none` when the collection became
empty. -/
theorem C3_delete_reclamp {app : App} (h : Inv app)
    (hs : app.current_screen = Screen.List) (hq : app.should_quit = false)
    {i : Nat} (hsel : app.notes.state.selected = some i) :
    (app.step_event (Event.key ⟨KeyCode.Char 'd', KeyModifiers.NONE,
      KeyEventKind.Press⟩)).notes.items = app.notes.items.eraseIdx i ∧
    (app.step_event (Event.key ⟨KeyCode.Char 'd', KeyModifiers.NONE,
      KeyEventKind.Press⟩)).db.rows = app.db.rows.eraseIdx i ∧
    (i ≠ 0 →
      (app.step_event (Event.key ⟨KeyCode.Char 'd', KeyModifiers.NONE,
        KeyEventKind.Press⟩)).notes.state.selected = some (i - 1)) ∧
    (i = 0 → app.notes.items.eraseIdx i = [] →
      (app.step_event (Event.key ⟨KeyCode.Char 'd', KeyModifiers.NONE,
        KeyEventKind.Press⟩)).notes.state.selected = none) ∧
    (i = 0 → app.notes.items.eraseIdx i ≠ [] →
      (app.step_event (Event.key ⟨KeyCode.Char 'd', KeyModifiers.NONE,
        KeyEventKind.Press⟩)).notes.state.selected = some 0) := by
  obtain ⟨h1, h2, h3, h4⟩ := h
  obtain ⟨⟨rows, nid, log⟩, ⟨items, ⟨sel⟩⟩, scr, ti, ci, fi, sq⟩ := app
  replace h1 : items = rows := h1
  subst h1
  replace h2 : List.Pairwise (fun a b => a.id < b.id) items := h2
  replace hs : scr = Screen.List := hs
  subst hs
  replace hq : sq = false := hq
  subst hq
  replace hsel : sel = some i := hsel
  subst hsel
  replace h4 : i < items.length := h4
  have hne := pairwise_ne_of_idSorted h2
  have hfilter := filter_ne_eq_eraseIdx items i h4 hne
  have hlen : (items.eraseIdx i).length = items.length - 1 := by
    rw [List.length_eraseIdx]
    rw [if_pos h4]
  have hk : (App.mk ⟨items, nid, log⟩ ⟨items, ⟨some i⟩⟩ Screen.List ti ci fi
      false).handle_key ⟨KeyCode.Char 'd', KeyModifiers.NONE, KeyEventKind.Press⟩
      (Event.key ⟨KeyCode.Char 'd', KeyModifiers.NONE, KeyEventKind.Press⟩)
      = some (Action.List ListAction.DeleteNote) := by
    simp only [App.handle_key]
    rw [if_neg (by simp), if_neg (by simp), if_neg (by simp), if_neg (by simp),
      if_neg (by simp)]
    simp
  rw [step_event_key_some hk]
  have hbq : ((App.mk ⟨items, nid, log⟩ ⟨items, ⟨some i⟩⟩ Screen.List ti ci fi
      false).handle_action (Action.List ListAction.DeleteNote)).2.should_quit
      = false := by
    simp only [App.handle_action, App.delete_note, Database.delete_note]
    rw [dif_pos h4]
  rw [step_action_live hbq]
  simp only [App.handle_action, App.delete_note, Database.delete_note]
  rw [dif_pos h4]
  refine ⟨?_, ?_, ?_, ?_, ?_⟩
  · rw [(render_clamp_frame _).1]
  · rw [(render_clamp_frame _).2.1]
    exact hfilter
  · intro hi
    rw [render_clamp_selected rfl]
    rw [if_pos hi]
    simp only [ListState.select]
    rw [if_neg (show ¬ ((items.eraseIdx i).isEmpty = true) from by
      simp only [List.isEmpty_iff]
      intro hemp
      rw [hemp] at hlen
      simp at hlen
      omega)]
    rw [hlen]
    rw [if_neg (by omega)]
  · intro hi hemp
    subst hi
    rw [render_clamp_selected rfl]
    rw [if_pos (by simp [hemp])]
  · intro hi hnemp
    subst hi
    rw [render_clamp_selected rfl]
    rw [if_neg (show ¬ ((items.eraseIdx 0).isEmpty = true) from by
      simp only [List.isEmpty_iff]
      exact hnemp)]
    rw [if_neg (by simp)]
    simp only []
    rw [if_neg (show ¬ (0 ≥ (items.eraseIdx 0).length) from by
      have := List.length_pos.mpr hnemp
      omega)]

/-- C3 witness: deleting the only note empties the collection and the
selection becomes none at the next input-wait point. -/
theorem C3_delete_reclamp_witness :
    ((startup ⟨[⟨1, "t", "c"⟩], 2, []⟩).render_clamp.step_event
      (Event.key ⟨KeyCode.Char 'd', KeyModifiers.NONE, KeyEventKind.Press⟩)).notes.items
      = (startup ⟨[⟨1, "t", "c"⟩], 2, []⟩).render_clamp.notes.items.eraseIdx 0 ∧
    ((startup ⟨[⟨1, "t", "c"⟩], 2, []⟩).render_clamp.step_event
      (Event.key ⟨KeyCode.Char 'd', KeyModifiers.NONE, KeyEventKind.Press⟩)).db.rows
      = (startup ⟨[⟨1, "t", "c"⟩], 2, []⟩).render_clamp.db.rows.eraseIdx 0 ∧
    ((0 : Nat) ≠ 0 →
      ((startup ⟨[⟨1, "t", "c"⟩], 2, []⟩).render_clamp.step_event
        (Event.key ⟨KeyCode.Char 'd', KeyModifiers.NONE,
          KeyEventKind.Press⟩)).notes.state.selected = some (0 - 1)) ∧
    ((0 : Nat) = 0 →
      (startup ⟨[⟨1, "t", "c"⟩], 2, []⟩).render_clamp.notes.items.eraseIdx 0 = [] →
      ((startup ⟨[⟨1, "t", "c"⟩], 2, []⟩).render_clamp.step_event
        (Event.key ⟨KeyCode.Char 'd', KeyModifiers.NONE,
          KeyEventKind.Press⟩)).notes.state.selected = none) ∧
    ((0 : Nat) = 0 →
      (startup ⟨[⟨1, "t", "c"⟩], 2, []⟩).render_clamp.notes.items.eraseIdx 0 ≠ [] →
      ((startup ⟨[⟨1, "t", "c"⟩], 2, []⟩).render_clamp.step_event
        (Event.key ⟨KeyCode.Char 'd', KeyModifiers.NONE,
          KeyEventKind.Press⟩)).notes.state.selected = some 0) :=
  C3_delete_reclamp (by decide) (by decide) (by decide)
    (show (startup ⟨[⟨1, "t", "c"⟩], 2, []⟩).render_clamp.notes.state.selected
      = some 0 from by decide)

/-- C4: in every reachable state — in particular after every AddNote,
Save and DeleteNote — the cached collection equals exactly what the
store's `get_all_notes` (`SELECT ... ORDER BY id`) would return: same
ids, titles, contents, in ascending id order. -/
theorem C4_cache_matches_store {db0 : Database} (hdb : DBInit db0) {app : App}
    (h : Reachable db0 app) :
    app.notes.items = app.db.get_all_notes := by
  have hi := inv_reachable hdb h
  obtain ⟨h1, h2, h3, h4⟩ := hi
  unfold Database.get_all_notes
  rw [sortById_eq_self h2]
  exact h1

/-- C4 witness: the correspondence evaluated at the startup state over an
empty store. -/
theorem C4_cache_matches_store_witness :
    (startup ⟨[], 1, []⟩).render_clamp.notes.items
      = (startup ⟨[], 1, []⟩).render_clamp.db.get_all_notes :=
  C4_cache_matches_store (by decide) Reachable.start

/-- C5: `update_note` on an id absent from the table leaves the stored
rows unchanged yet returns a Note carrying exactly the requested id,
title and content; `delete_note` on an absent id also leaves the rows
unchanged (and returns unit success, as its Lean type shows). -/
theorem C5_absent_id_noop (db : Database) (id : Int) (t c : String)
    (h : ∀ r ∈ db.rows, r.id ≠ id) :
    (db.update_note id t c).2.rows = db.rows ∧
    (db.update_note id t c).1 = ⟨id, t, c⟩ ∧
    (db.delete_note id).rows = db.rows := by
  refine ⟨?_, rfl, ?_⟩
  · show db.rows.map (fun r => if r.id = id
        then { r with title := t, content := c } else r) = db.rows
    exact map_eq_self_of_forall (fun y hy => by rw [if_neg (h y hy)])
  · show db.rows.filter (fun r => r.id != id) = db.rows
    refine List.filter_eq_self.mpr (fun a ha => ?_)
    simp only [bne_iff_ne, ne_eq]
    exact h a ha

/-- C5 witness: updating and deleting id 5 on a table holding only id 1. -/
theorem C5_absent_id_noop_witness :
    ((⟨[⟨1, "a", "b"⟩], 2, []⟩ : Database).update_note 5 "x" "y").2.rows
      = (⟨[⟨1, "a", "b"⟩], 2, []⟩ : Database).rows ∧
    ((⟨[⟨1, "a", "b"⟩], 2, []⟩ : Database).update_note 5 "x" "y").1 = ⟨5, "x", "y"⟩ ∧
    ((⟨[⟨1, "a", "b"⟩], 2, []⟩ : Database).delete_note 5).rows
      = (⟨[⟨1, "a", "b"⟩], 2, []⟩ : Database).rows :=
  C5_absent_id_noop ⟨[⟨1, "a", "b"⟩], 2, []⟩ 5 "x" "y" (by decide)

/-- C6: from any List-screen state with N cached notes, the add key
creates the store row `(nextId, "New note", "")`, appends the same note
to the cache, selects index N, resets both edit buffers, and switches to
the Form screen. -/
theorem C6_add_note {app : App} (hs : app.current_screen = Screen.List) :
    (app.step_event (Event.key ⟨KeyCode.Char 'a', KeyModifiers.NONE,
      KeyEventKind.Press⟩)).current_screen = Screen.Form ∧
    (app.step_event (Event.key ⟨KeyCode.Char 'a', KeyModifiers.NONE,
      KeyEventKind.Press⟩)).db.rows
      = app.db.rows ++ [⟨app.db.nextId, "New note", ""⟩] ∧
    (app.step_event (Event.key ⟨KeyCode.Char 'a', KeyModifiers.NONE,
      KeyEventKind.Press⟩)).notes.items
      = app.notes.items ++ [⟨app.db.nextId, "New note", ""⟩] ∧
    (app.step_event (Event.key ⟨KeyCode.Char 'a', KeyModifiers.NONE,
      KeyEventKind.Press⟩)).notes.state.selected = some app.notes.items.length ∧
    (app.step_event (Event.key ⟨KeyCode.Char 'a', KeyModifiers.NONE,
      KeyEventKind.Press⟩)).title_input = Input.default ∧
    (app.step_event (Event.key ⟨KeyCode.Char 'a', KeyModifiers.NONE,
      KeyEventKind.Press⟩)).content_input = Input.default := by
  have hk : app.handle_key ⟨KeyCode.Char 'a', KeyModifiers.NONE, KeyEventKind.Press⟩
      (Event.key ⟨KeyCode.Char 'a', KeyModifiers.NONE, KeyEventKind.Press⟩)
      = some (Action.List ListAction.AddNote) := by
    simp only [App.handle_key, hs]
    rw [if_neg (by simp), if_neg (by simp), if_neg (by simp), if_neg (by simp),
      if_pos (by simp)]
  rw [step_event_key_some hk]
  rw [step_action_eq_of_clamp_id (show (app.handle_action
    (Action.List ListAction.AddNote)).2.render_clamp
    = (app.handle_action (Action.List ListAction.AddNote)).2 from rfl)]
  refine ⟨rfl, rfl, rfl, ?_, rfl, rfl⟩
  show some ((app.notes.items ++ [(⟨app.db.nextId, "New note", ""⟩ : Note)]).length - 1)
      = some app.notes.items.length
  simp

/-- C6 witness: adding from the empty startup state creates note id 1 and
selects index 0. -/
theorem C6_add_note_witness :
    ((startup ⟨[], 1, []⟩).render_clamp.step_event (Event.key ⟨KeyCode.Char 'a',
      KeyModifiers.NONE, KeyEventKind.Press⟩)).current_screen = Screen.Form ∧
    ((startup ⟨[], 1, []⟩).render_clamp.step_event (Event.key ⟨KeyCode.Char 'a',
      KeyModifiers.NONE, KeyEventKind.Press⟩)).db.rows
      = (startup ⟨[], 1, []⟩).render_clamp.db.rows
        ++ [⟨(startup ⟨[], 1, []⟩).render_clamp.db.nextId, "New note", ""⟩] ∧
    ((startup ⟨[], 1, []⟩).render_clamp.step_event (Event.key ⟨KeyCode.Char 'a',
      KeyModifiers.NONE, KeyEventKind.Press⟩)).notes.items
      = (startup ⟨[], 1, []⟩).render_clamp.notes.items
        ++ [⟨(startup ⟨[], 1, []⟩).render_clamp.db.nextId, "New note", ""⟩] ∧
    ((startup ⟨[], 1, []⟩).render_clamp.step_event (Event.key ⟨KeyCode.Char 'a',
      KeyModifiers.NONE, KeyEventKind.Press⟩)).notes.state.selected
      = some (startup ⟨[], 1, []⟩).render_clamp.notes.items.length ∧
    ((startup ⟨[], 1, []⟩).render_clamp.step_event (Event.key ⟨KeyCode.Char 'a',
      KeyModifiers.NONE, KeyEventKind.Press⟩)).title_input = Input.default ∧
    ((startup ⟨[], 1, []⟩).render_clamp.step_event (Event.key ⟨KeyCode.Char 'a',
      KeyModifiers.NONE, KeyEventKind.Press⟩)).content_input = Input.default :=
  C6_add_note (by decide)

/-- C7: from any Form-screen state — whatever the edit buffers hold — the
Escape key's action changes only the current screen, back to List: the
cached collection, the selection, both buffers, the focus, the quit flag
and the entire store (rows, counter, and mutation log — hence no store
operation) are unchanged. -/
theorem C7_escape_discards {app : App} (hs : app.current_screen = Screen.Form)
    (m : KeyModifiers) (kind : KeyEventKind) :
    app.process_event (Event.key ⟨KeyCode.Esc, m, kind⟩)
      = { app with current_screen := Screen.List } := by
  have hk : app.handle_key ⟨KeyCode.Esc, m, kind⟩ (Event.key ⟨KeyCode.Esc, m, kind⟩)
      = some (Action.Form FormAction.Exit) := by
    simp only [App.handle_key, hs]
    rw [if_neg (by simp), if_neg (by simp)]
    simp
  show App.run_actions 2 app (app.handle_key ⟨KeyCode.Esc, m, kind⟩
    (Event.key ⟨KeyCode.Esc, m, kind⟩)) = { app with current_screen := Screen.List }
  rw [hk, run_actions_some]
  rfl

/-- C7 witness: Escape from a Form state with mutated buffers. -/
theorem C7_escape_discards_witness :
    (App.mk ⟨[⟨1, "t", "c"⟩], 2, []⟩ ⟨[⟨1, "t", "c"⟩], ⟨some 0⟩⟩ Screen.Form
        ⟨"edited title", 3⟩ ⟨"edited content", 5⟩ FocusedInput.Content
        false).process_event (Event.key ⟨KeyCode.Esc, KeyModifiers.NONE,
          KeyEventKind.Press⟩)
      = { App.mk ⟨[⟨1, "t", "c"⟩], 2, []⟩ ⟨[⟨1, "t", "c"⟩], ⟨some 0⟩⟩ Screen.Form
          ⟨"edited title", 3⟩ ⟨"edited content", 5⟩ FocusedInput.Content
          false with current_screen := Screen.List } :=
  C7_escape_discards rfl KeyModifiers.NONE KeyEventKind.Press

/-- C8: the claim says key-release events are ignored, but `App::run` and
`App::handle_key` never inspect the event kind: a release of q on the
List screen classifies as Quit and moves the app to the ExitConfirm
screen, changing the state. -/
theorem C8_release_processed :
    let db0 : Database := ⟨[⟨1, "t", "c"⟩], 2, []⟩
    let qr : KeyEvent := ⟨KeyCode.Char 'q', KeyModifiers.NONE, KeyEventKind.Release⟩
    let a := (startup db0).render_clamp
    a.handle_key qr (Event.key qr) = some (Action.List ListAction.Quit) ∧
    a.current_screen = Screen.List ∧
    (a.step_event (Event.key qr)).current_screen = Screen.ExitConfirm ∧
    a.step_event (Event.key qr) ≠ a := by
  decide

/-- C9: key classification is a pure function of the current screen and
the key: two states agreeing on the screen classify every key event
identically (the embedding of `handle_key` is a pure function — the Rust
body reads `self.current_screen` and writes no field and performs no
store call — so the state is trivially unchanged). -/
theorem C9_classify_pure (a b : App) (k : KeyEvent) (e : Event)
    (h : a.current_screen = b.current_screen) :
    a.handle_key k e = b.handle_key k e := by
  unfold App.handle_key
  rw [h]

/-- C9 witness: two states with different collections, buffers and flags
but the same screen classify a key identically. -/
theorem C9_classify_pure_witness :
    (App.mk ⟨[], 1, []⟩ ⟨[], ⟨none⟩⟩ Screen.List Input.default Input.default
        FocusedInput.Title false).handle_key
      ⟨KeyCode.Char 'q', KeyModifiers.NONE, KeyEventKind.Press⟩
      (Event.key ⟨KeyCode.Char 'q', KeyModifiers.NONE, KeyEventKind.Press⟩)
    = (App.mk ⟨[⟨7, "x", "y"⟩], 9, []⟩ ⟨[⟨7, "x", "y"⟩], ⟨some 0⟩⟩ Screen.List
        ⟨"t", 1⟩ ⟨"c", 1⟩ FocusedInput.Content true).handle_key
      ⟨KeyCode.Char 'q', KeyModifiers.NONE, KeyEventKind.Press⟩
      (Event.key ⟨KeyCode.Char 'q', KeyModifiers.NONE, KeyEventKind.Press⟩) :=
  C9_classify_pure _ _ _ _ rfl

/-- C10: on the ExitConfirm screen only Escape (cancel, back to List) and
the letter q (confirm, sets the quit flag) map to actions; every other
key — including the y and n that the on-screen help advertises —
classifies to no action, and the loop iteration leaves the state
unchanged. -/
theorem C10_exit_confirm_keys {app : App}
    (hs : app.current_screen = Screen.ExitConfirm)
    (m : KeyModifiers) (kind : KeyEventKind) (code : KeyCode) (e : Event) :
    app.handle_key ⟨KeyCode.Esc, m, kind⟩ e = some (Action.Exit ExitAction.Cancel) ∧
    app.handle_key ⟨KeyCode.Char 'q', m, kind⟩ e
      = some (Action.Exit ExitAction.Confirm) ∧
    (app.process_event (Event.key ⟨KeyCode.Esc, m, kind⟩)).current_screen
      = Screen.List ∧
    (app.process_event (Event.key ⟨KeyCode.Char 'q', m, kind⟩)).should_quit
      = true ∧
    (code ≠ KeyCode.Esc → code ≠ KeyCode.Char 'q' →
      app.handle_key ⟨code, m, kind⟩ e = none ∧
      app.step_event (Event.key ⟨code, m, kind⟩) = app) := by
  have hclamp : app.render_clamp = app := by
    obtain ⟨db, ⟨items, ⟨sel⟩⟩, scr, ti, ci, fi, sq⟩ := app
    replace hs : scr = Screen.ExitConfirm := hs
    subst hs
    rfl
  have hesc : ∀ e' : Event, app.handle_key ⟨KeyCode.Esc, m, kind⟩ e'
      = some (Action.Exit ExitAction.Cancel) := by
    intro e'
    simp only [App.handle_key, hs]
    simp
  have hq : ∀ e' : Event, app.handle_key ⟨KeyCode.Char 'q', m, kind⟩ e'
      = some (Action.Exit ExitAction.Confirm) := by
    intro e'
    simp only [App.handle_key, hs]
    rw [if_neg (by simp)]
    simp
  refine ⟨hesc e, hq e, ?_, ?_, ?_⟩
  · show (App.run_actions 2 app (app.handle_key ⟨KeyCode.Esc, m, kind⟩
      (Event.key ⟨KeyCode.Esc, m, kind⟩))).current_screen = Screen.List
    rw [hesc _, run_actions_some]
    rfl
  · show (App.run_actions 2 app (app.handle_key ⟨KeyCode.Char 'q', m, kind⟩
      (Event.key ⟨KeyCode.Char 'q', m, kind⟩))).should_quit = true
    rw [hq _, run_actions_some]
    rfl
  · intro h1 h2
    have hk : app.handle_key ⟨code, m, kind⟩ (Event.key ⟨code, m, kind⟩) = none := by
      simp only [App.handle_key, hs]
      rw [if_neg h1, if_neg h2]
    refine ⟨by
      simp only [App.handle_key, hs]
      rw [if_neg h1, if_neg h2], ?_⟩
    rw [step_event_key_none hk, hclamp, ite_self]

/-- C10 witness: the letter y — advertised as Yes by the ExitConfirm help
text — maps to no action and leaves the state unchanged. -/
theorem C10_exit_confirm_keys_witness :
    (App.mk ⟨[], 1, []⟩ ⟨[], ⟨none⟩⟩ Screen.ExitConfirm Input.default Input.default
        FocusedInput.Title false).handle_key
        ⟨KeyCode.Esc, KeyModifiers.NONE, KeyEventKind.Press⟩
        (Event.key ⟨KeyCode.Char 'y', KeyModifiers.NONE, KeyEventKind.Press⟩)
      = some (Action.Exit ExitAction.Cancel) ∧
    (App.mk ⟨[], 1, []⟩ ⟨[], ⟨none⟩⟩ Screen.ExitConfirm Input.default Input.default
        FocusedInput.Title false).handle_key
        ⟨KeyCode.Char 'q', KeyModifiers.NONE, KeyEventKind.Press⟩
        (Event.key ⟨KeyCode.Char 'y', KeyModifiers.NONE, KeyEventKind.Press⟩)
      = some (Action.Exit ExitAction.Confirm) ∧
    ((App.mk ⟨[], 1, []⟩ ⟨[], ⟨none⟩⟩ Screen.ExitConfirm Input.default Input.default
        FocusedInput.Title false).process_event
        (Event.key ⟨KeyCode.Esc, KeyModifiers.NONE,
          KeyEventKind.Press⟩)).current_screen = Screen.List ∧
    ((App.mk ⟨[], 1, []⟩ ⟨[], ⟨none⟩⟩ Screen.ExitConfirm Input.default Input.default
        FocusedInput.Title false).process_event
        (Event.key ⟨KeyCode.Char 'q', KeyModifiers.NONE,
          KeyEventKind.Press⟩)).should_quit = true ∧
    (KeyCode.Char 'y' ≠ KeyCode.Esc → KeyCode.Char 'y' ≠ KeyCode.Char 'q' →
      (App.mk ⟨[], 1, []⟩ ⟨[], ⟨none⟩⟩ Screen.ExitConfirm Input.default Input.default
          FocusedInput.Title false).handle_key
          ⟨KeyCode.Char 'y', KeyModifiers.NONE, KeyEventKind.Press⟩
          (Event.key ⟨KeyCode.Char 'y', KeyModifiers.NONE, KeyEventKind.Press⟩)
        = none ∧
      (App.mk ⟨[], 1, []⟩ ⟨[], ⟨none⟩⟩ Screen.ExitConfirm Input.default Input.default
          FocusedInput.Title false).step_event
          (Event.key ⟨KeyCode.Char 'y', KeyModifiers.NONE, KeyEventKind.Press⟩)
        = App.mk ⟨[], 1, []⟩ ⟨[], ⟨none⟩⟩ Screen.ExitConfirm Input.default
          Input.default FocusedInput.Title false) :=
  C10_exit_confirm_keys rfl KeyModifiers.NONE KeyEventKind.Press (KeyCode.Char 'y')
    (Event.key ⟨KeyCode.Char 'y', KeyModifiers.NONE, KeyEventKind.Press⟩)

end Ratata
